import Mathlib

set_option linter.unusedVariables false

/-!
Shallow embedding of the TrustNet Move ledger modules
(`privacy_pool`, `employee_wallet`, `payroll_distributor`,
`organization_registry`) and proofs of the specification's claims.

Modelling conventions:
* `u64` values are `Nat`; Move aborts on `u64` overflow, so every addition
  appearing in the source is guarded by an explicit `< 2^64` check that
  aborts with `ARITHMETIC_OVERFLOW` otherwise.
* `address` is `Nat`; `vector<u8>` is `List Nat`.
* A Move `abort` rolls back the whole transaction, so each entry function is
  embedded as `Except Abort σ`: an `.error` outcome produces no new state, and
  the run semantics keeps the pre-state on error.
* `sui::table` and `sui::vec_map` are embedded as association lists with
  distinct keys.
* Events are consumed by the excluded notification layer and are not modelled.
-/

/-- One more than the largest `u64` value; additions reaching this bound abort. -/
def U64_MOD : Nat := 2 ^ 64

/-- Abort reasons, one constructor per module error constant (module suffixes
disambiguate constants with the same name), plus the Move VM aborts for
arithmetic overflow, duplicate dynamic-field keys, and missing objects. -/
inductive Abort where
  | E_INVALID_PROOF
  | E_NULLIFIER_SPENT
  | E_COMMITMENT_EXISTS
  | E_INVALID_AMOUNT_POOL
  | E_INSUFFICIENT_POOL_BALANCE
  | E_MERKLE_ROOT_MISMATCH
  | E_WALLET_EXISTS
  | E_WALLET_MISSING
  | E_INSUFFICIENT_BALANCE_W
  | E_UNAUTHORIZED_W
  | E_INVALID_AMOUNT_W
  | E_ORG_EXISTS
  | E_ORG_MISSING
  | E_NOT_ADMIN
  | E_EMPLOYEE_EXISTS
  | E_EMPLOYEE_MISSING
  | E_EMPLOYEE_CAP
  | E_INVALID_SPEND_LIMIT
  | E_INVALID_EMPLOYEE_CAP
  | E_TREASURY_LIMIT
  | E_TREASURY_INSUFFICIENT
  | E_UNAUTHORIZED_P
  | E_INSUFFICIENT_BALANCE_P
  | E_INVALID_AMOUNT_P
  | E_EMPTY_BATCH
  | E_BATCH_TOO_LARGE
  | E_PAYROLL_NOT_FOUND
  | ARITHMETIC_OVERFLOW
  | DYNAMIC_FIELD_EXISTS
  | OBJECT_MISSING
  | ALIASED_MUT_REF
deriving DecidableEq, Repr

/-! ### Association lists (embedding of `sui::table` and `sui::vec_map`) -/

/-- Value bound to key `k`, if any (first binding wins). -/
def lookupA {K V : Type} [DecidableEq K] : List (K × V) → K → Option V
  | [], _ => none
  | (k, v) :: rest, key => if k = key then some v else lookupA rest key

/-- Membership test, mirroring `table::contains` / `vec_map::contains`. -/
def containsA {K V : Type} [DecidableEq K] (m : List (K × V)) (k : K) : Bool :=
  (lookupA m k).isSome

/-- Insertion of a fresh binding, mirroring `table::add` / `vec_map::insert`
(the sources only call these on absent keys). -/
def insertA {K V : Type} (m : List (K × V)) (k : K) (v : V) : List (K × V) :=
  m ++ [(k, v)]

/-- Removal of the binding for `k`, mirroring `vec_map::remove`. -/
def removeA {K V : Type} [DecidableEq K] : List (K × V) → K → List (K × V)
  | [], _ => []
  | (k, v) :: rest, key => if k = key then rest else (k, v) :: removeA rest key

/-- Replacement of the value bound to `k`, mirroring mutation through
`table::borrow_mut`. -/
def updateA {K V : Type} [DecidableEq K] : List (K × V) → K → V → List (K × V)
  | [], _, _ => []
  | (k, v) :: rest, key, val =>
      if k = key then (key, val) :: rest else (k, v) :: updateA rest key val

/-! ### `contracts::privacy_pool` -/

/-- State of the shared `PrivacyPool` object (the `Balance<SUI>` field is its
`u64` value; the `UID` is not modelled). -/
structure PrivacyPool where
  balance : Nat
  commitments : List (List Nat × Bool)
  nullifiers : List (List Nat × Bool)
  merkle_root : List Nat
  total_deposits : Nat
  total_withdrawals : Nat
  denomination : Nat
deriving DecidableEq, Repr

/-- External proof verifier interface: `(proof, nullifier, root) → accept?`.
The spec treats proof verification as an opaque pass/fail oracle. -/
def Oracle : Type := List Nat → List Nat → List Nat → Bool

/-- `init_pool`: requires a positive denomination, creates the pool with empty
tables, empty root and zero totals. -/
def init_pool (denomination clock_ms : Nat) : Except Abort PrivacyPool :=
  if denomination = 0 then .error .E_INVALID_AMOUNT_POOL
  else .ok { balance := 0, commitments := [], nullifiers := [],
             merkle_root := [], total_deposits := 0, total_withdrawals := 0,
             denomination := denomination }

/-- `deposit`: the coin's value must equal the denomination, the commitment
must be fresh; then the coin joins the pool balance, the commitment is
recorded and `total_deposits` grows by the amount. -/
def deposit_pool (pool : PrivacyPool) (amount : Nat) (commitment : List Nat)
    (clock_ms : Nat) : Except Abort PrivacyPool :=
  if amount ≠ pool.denomination then .error .E_INVALID_AMOUNT_POOL
  else if containsA pool.commitments commitment then .error .E_COMMITMENT_EXISTS
  else if U64_MOD ≤ pool.balance + amount then .error .ARITHMETIC_OVERFLOW
  else if U64_MOD ≤ pool.total_deposits + amount then .error .ARITHMETIC_OVERFLOW
  else .ok { pool with
              balance := pool.balance + amount,
              commitments := insertA pool.commitments commitment true,
              total_deposits := pool.total_deposits + amount }

/-- `verify_proof`: the source body is an empty placeholder ("In production,
verify ZK proof here"); it ignores its arguments, never consults the external
oracle, and never aborts.  The oracle parameter models the external verifier
interface of the spec, which the code never calls. -/
def verify_proof (oracle : Oracle) (proof nullifier merkle_root : List Nat) :
    Except Abort Unit :=
  .ok ()

/-- `withdraw`: nullifier-replay check, exact merkle-root equality check,
placeholder proof verification, pool-balance check; then the nullifier is
marked spent, the denomination leaves the balance and `total_withdrawals`
grows by the denomination (the coin transfer to `recipient` is external). -/
def withdraw_pool (oracle : Oracle) (pool : PrivacyPool) (nullifier : List Nat)
    (recipient : Nat) (proof : List Nat) (merkle_root : List Nat)
    (clock_ms : Nat) : Except Abort PrivacyPool :=
  if containsA pool.nullifiers nullifier then .error .E_NULLIFIER_SPENT
  else if merkle_root ≠ pool.merkle_root then .error .E_MERKLE_ROOT_MISMATCH
  else match verify_proof oracle proof nullifier merkle_root with
  | .error e => .error e
  | .ok _ =>
    if pool.balance < pool.denomination then .error .E_INSUFFICIENT_POOL_BALANCE
    else if U64_MOD ≤ pool.total_withdrawals + pool.denomination then
      .error .ARITHMETIC_OVERFLOW
    else .ok { pool with
                nullifiers := insertA pool.nullifiers nullifier true,
                balance := pool.balance - pool.denomination,
                total_withdrawals := pool.total_withdrawals + pool.denomination }

/-- `update_merkle_root`: unconditional overwrite of the stored root. -/
def update_merkle_root (pool : PrivacyPool) (new_root : List Nat)
    (clock_ms : Nat) : PrivacyPool :=
  { pool with merkle_root := new_root }

/-- `commitment_exists` query. -/
def commitment_exists (pool : PrivacyPool) (commitment : List Nat) : Bool :=
  containsA pool.commitments commitment

/-- `nullifier_spent` query. -/
def nullifier_spent (pool : PrivacyPool) (nullifier : List Nat) : Bool :=
  containsA pool.nullifiers nullifier

/-! #### Pool transaction sequences -/

/-- A pool entry-point call with its arguments. -/
inductive PAction where
  | dep (amount : Nat) (commitment : List Nat) (clock_ms : Nat)
  | wd (nullifier : List Nat) (recipient : Nat) (proof : List Nat)
       (merkle_root : List Nat) (clock_ms : Nat)
  | root (new_root : List Nat) (clock_ms : Nat)

/-- One pool transaction. -/
def stepPool (oracle : Oracle) (pool : PrivacyPool) :
    PAction → Except Abort PrivacyPool
  | .dep amount commitment clock_ms => deposit_pool pool amount commitment clock_ms
  | .wd nullifier recipient proof merkle_root clock_ms =>
      withdraw_pool oracle pool nullifier recipient proof merkle_root clock_ms
  | .root new_root clock_ms => .ok (update_merkle_root pool new_root clock_ms)

/-- Runs a sequence of pool transactions (an aborted transaction leaves the
pool unchanged) and counts the successful deposits and withdrawals. -/
def runPool (oracle : Oracle) (pool : PrivacyPool) :
    List PAction → PrivacyPool × Nat × Nat
  | [] => (pool, 0, 0)
  | act :: rest =>
    match stepPool oracle pool act with
    | .ok pool' =>
      let r := runPool oracle pool' rest
      match act with
      | .dep _ _ _ => (r.1, r.2.1 + 1, r.2.2)
      | .wd _ _ _ _ _ => (r.1, r.2.1, r.2.2 + 1)
      | .root _ _ => r
    | .error _ => runPool oracle pool rest

/-! ### `contracts::employee_wallet` -/

/-- The `EmployeeWallet` object (the `Balance<SUI>` field is its `u64` value;
the `UID` is kept outside the record as the key of the wallet store). -/
structure EmployeeWallet where
  owner : Nat
  organization : Nat
  balance : Nat
  total_deposited : Nat
  total_withdrawn : Nat
  created_at_ms : Nat
deriving DecidableEq, Repr

/-- `create_wallet`: new zero-balance wallet owned by the transaction sender. -/
def create_wallet (owner organization clock_ms : Nat) : EmployeeWallet :=
  { owner := owner, organization := organization, balance := 0,
    total_deposited := 0, total_withdrawn := 0, created_at_ms := clock_ms }

/-- `deposit`: positive coin value joins the balance and `total_deposited`. -/
def deposit_w (wallet : EmployeeWallet) (amount clock_ms : Nat) :
    Except Abort EmployeeWallet :=
  if amount = 0 then .error .E_INVALID_AMOUNT_W
  else if U64_MOD ≤ wallet.balance + amount then .error .ARITHMETIC_OVERFLOW
  else if U64_MOD ≤ wallet.total_deposited + amount then .error .ARITHMETIC_OVERFLOW
  else .ok { wallet with
              balance := wallet.balance + amount,
              total_deposited := wallet.total_deposited + amount }

/-- `withdraw`: owner-gated; positive amount; sufficient balance; the amount
leaves the balance, `total_withdrawn` grows (the coin goes to the caller). -/
def withdraw_w (wallet : EmployeeWallet) (amount clock_ms caller : Nat) :
    Except Abort EmployeeWallet :=
  if caller ≠ wallet.owner then .error .E_UNAUTHORIZED_W
  else if amount = 0 then .error .E_INVALID_AMOUNT_W
  else if wallet.balance < amount then .error .E_INSUFFICIENT_BALANCE_W
  else if U64_MOD ≤ wallet.total_withdrawn + amount then .error .ARITHMETIC_OVERFLOW
  else .ok { wallet with
              balance := wallet.balance - amount,
              total_withdrawn := wallet.total_withdrawn + amount }

/-- `transfer_funds`: gated by the source owner; positive amount; sufficient
source balance; in one step the amount moves between the two balances,
the source's `total_withdrawn` and the destination's `total_deposited` grow. -/
def transfer_funds (from_wallet to_wallet : EmployeeWallet)
    (amount clock_ms caller : Nat) :
    Except Abort (EmployeeWallet × EmployeeWallet) :=
  if caller ≠ from_wallet.owner then .error .E_UNAUTHORIZED_W
  else if amount = 0 then .error .E_INVALID_AMOUNT_W
  else if from_wallet.balance < amount then .error .E_INSUFFICIENT_BALANCE_W
  else if U64_MOD ≤ to_wallet.balance + amount then .error .ARITHMETIC_OVERFLOW
  else if U64_MOD ≤ from_wallet.total_withdrawn + amount then .error .ARITHMETIC_OVERFLOW
  else if U64_MOD ≤ to_wallet.total_deposited + amount then .error .ARITHMETIC_OVERFLOW
  else .ok
    ({ from_wallet with
        balance := from_wallet.balance - amount,
        total_withdrawn := from_wallet.total_withdrawn + amount },
     { to_wallet with
        balance := to_wallet.balance + amount,
        total_deposited := to_wallet.total_deposited + amount })

/-! #### Wallet transaction sequences

The wallet store maps each wallet's object id to its record.  `create` models
`object::new` freshness by aborting on an already-used id; operations on a
missing object cannot be issued in Move and abort here; `transfer_funds`
takes two distinct `&mut` references, so aliased ids abort. -/

/-- A wallet entry-point call with its arguments. -/
inductive WAction where
  | create (walletId owner organization clock_ms : Nat)
  | dep (walletId amount clock_ms : Nat)
  | wd (walletId amount clock_ms caller : Nat)
  | xfer (fromId toId amount clock_ms caller : Nat)

/-- One wallet transaction over the wallet store. -/
def stepW (st : List (Nat × EmployeeWallet)) :
    WAction → Except Abort (List (Nat × EmployeeWallet))
  | .create walletId owner organization clock_ms =>
    if containsA st walletId then .error .E_WALLET_EXISTS
    else .ok (insertA st walletId (create_wallet owner organization clock_ms))
  | .dep walletId amount clock_ms =>
    match lookupA st walletId with
    | none => .error .E_WALLET_MISSING
    | some w =>
      match deposit_w w amount clock_ms with
      | .error e => .error e
      | .ok w' => .ok (updateA st walletId w')
  | .wd walletId amount clock_ms caller =>
    match lookupA st walletId with
    | none => .error .E_WALLET_MISSING
    | some w =>
      match withdraw_w w amount clock_ms caller with
      | .error e => .error e
      | .ok w' => .ok (updateA st walletId w')
  | .xfer fromId toId amount clock_ms caller =>
    if fromId = toId then .error .ALIASED_MUT_REF
    else match lookupA st fromId, lookupA st toId with
    | some wf, some wt =>
      match transfer_funds wf wt amount clock_ms caller with
      | .error e => .error e
      | .ok p => .ok (updateA (updateA st fromId p.1) toId p.2)
    | _, _ => .error .E_WALLET_MISSING

/-- Runs a sequence of wallet transactions; an aborted transaction leaves the
store unchanged. -/
def runW (st : List (Nat × EmployeeWallet)) :
    List WAction → List (Nat × EmployeeWallet)
  | [] => st
  | act :: rest =>
    match stepW st act with
    | .ok st' => runW st' rest
    | .error _ => runW st rest

/-! ### `contracts::payroll_distributor` -/

/-- `MAX_BATCH_SIZE` constant. -/
def MAX_BATCH_SIZE : Nat := 500

/-- A `PayrollRun` history record. -/
structure PayrollRun where
  run_id : Nat
  organization : Nat
  executor : Nat
  total_amount : Nat
  employee_count : Nat
  executed_at_ms : Nat
  status : Nat
deriving DecidableEq, Repr

/-- The shared `PayrollRegistry` object. -/
structure PayrollRegistry where
  payroll_runs : List (Nat × PayrollRun)
  next_run_id : Nat
deriving DecidableEq, Repr

/-- A `PayrollBatch` object (the escrowed `Balance<SUI>` is its `u64` value;
`recipients` is the `VecMap<address, u64>`). -/
structure PayrollBatch where
  organization : Nat
  balance : Nat
  recipients : List (Nat × Nat)
  total_amount : Nat
  created_at_ms : Nat
deriving DecidableEq, Repr

/-- `create_payroll_batch`: escrows a positive coin value, zero recipients. -/
def create_payroll_batch (organization amount clock_ms : Nat) :
    Except Abort PayrollBatch :=
  if amount = 0 then .error .E_INVALID_AMOUNT_P
  else .ok { organization := organization, balance := amount, recipients := [],
             total_amount := 0, created_at_ms := clock_ms }

/-- `add_to_batch`: positive amount, batch below `MAX_BATCH_SIZE`; inserts the
employee and folds the amount into `total_amount` only when the employee is
not already pending (a duplicate is a silent no-op). -/
def add_to_batch (batch : PayrollBatch) (employee amount : Nat) :
    Except Abort PayrollBatch :=
  if amount = 0 then .error .E_INVALID_AMOUNT_P
  else if MAX_BATCH_SIZE ≤ batch.recipients.length then .error .E_BATCH_TOO_LARGE
  else if containsA batch.recipients employee then .ok batch
  else if U64_MOD ≤ batch.total_amount + amount then .error .ARITHMETIC_OVERFLOW
  else .ok { batch with
              recipients := insertA batch.recipients employee amount,
              total_amount := batch.total_amount + amount }

/-- `execute_payroll_single`: the wallet owner must be pending; the pending
entry is removed; the batch balance must cover the amount; the amount is
deposited into the wallet; a completed `PayrollRun` record is appended under
the next run id. -/
def execute_payroll_single (registry : PayrollRegistry) (batch : PayrollBatch)
    (wallet : EmployeeWallet) (clock_ms sender : Nat) :
    Except Abort (PayrollRegistry × PayrollBatch × EmployeeWallet) :=
  match lookupA batch.recipients wallet.owner with
  | none => .error .E_PAYROLL_NOT_FOUND
  | some amount =>
    let recipients' := removeA batch.recipients wallet.owner
    if batch.balance < amount then .error .E_INSUFFICIENT_BALANCE_P
    else match deposit_w wallet amount clock_ms with
    | .error e => .error e
    | .ok wallet' =>
      if U64_MOD ≤ registry.next_run_id + 1 then .error .ARITHMETIC_OVERFLOW
      else if containsA registry.payroll_runs registry.next_run_id then
        .error .DYNAMIC_FIELD_EXISTS
      else .ok
        ({ payroll_runs := insertA registry.payroll_runs registry.next_run_id
             { run_id := registry.next_run_id, organization := batch.organization,
               executor := sender, total_amount := amount, employee_count := 1,
               executed_at_ms := clock_ms, status := 1 },
           next_run_id := registry.next_run_id + 1 },
         { batch with balance := batch.balance - amount, recipients := recipients' },
         wallet')

/-- `batch_execute_payroll`: same pending-recipient and balance checks and the
same removal/deduction as `execute_payroll_single`, but the payment coin is
returned to the caller and neither the wallet nor the run history is touched. -/
def batch_execute_payroll (batch : PayrollBatch) (wallet : EmployeeWallet) :
    Except Abort (PayrollBatch × Nat) :=
  match lookupA batch.recipients wallet.owner with
  | none => .error .E_PAYROLL_NOT_FOUND
  | some amount =>
    let recipients' := removeA batch.recipients wallet.owner
    if batch.balance < amount then .error .E_INSUFFICIENT_BALANCE_P
    else .ok ({ batch with
                balance := batch.balance - amount,
                recipients := recipients' }, amount)

/-! ### `contracts::organization_registry` -/

/-- An `EmployeeProfile` record. -/
structure EmployeeProfile where
  wallet : Nat
  role : List Nat
  active : Bool
  last_updated_ms : Nat
deriving DecidableEq, Repr

/-- Treasury bookkeeping for one organization. -/
structure TreasuryStats where
  total_deposited : Nat
  total_withdrawn : Nat
  spend_limit : Nat
deriving DecidableEq, Repr

/-- An `OrganizationRecord`. -/
structure OrganizationRecord where
  name : List Nat
  metadata : List Nat
  admin : Nat
  employees : List (Nat × EmployeeProfile)
  employee_cap : Nat
  employee_count : Nat
  treasury : TreasuryStats
  created_at_ms : Nat
deriving DecidableEq, Repr

/-- The shared `Registry` object mapping admin addresses to organizations. -/
structure Registry where
  organizations : List (Nat × OrganizationRecord)
deriving DecidableEq, Repr

/-- `assert_within_limit`: available funds (`total_deposited −
total_withdrawn`, aborting on `u64` underflow) must not exceed the spend
limit. -/
def assert_within_limit (treasury : TreasuryStats) : Except Abort Unit :=
  if treasury.total_deposited < treasury.total_withdrawn then
    .error .ARITHMETIC_OVERFLOW
  else if treasury.spend_limit <
      treasury.total_deposited - treasury.total_withdrawn then
    .error .E_TREASURY_LIMIT
  else .ok ()

/-- `register_organization`: positive caps; the sender must not already own an
organization; creates the record with zero employees and zero treasury. -/
def register_organization (registry : Registry) (name metadata : List Nat)
    (employee_cap spend_limit clock_ms sender : Nat) : Except Abort Registry :=
  if employee_cap = 0 then .error .E_INVALID_EMPLOYEE_CAP
  else if spend_limit = 0 then .error .E_INVALID_SPEND_LIMIT
  else if containsA registry.organizations sender then .error .E_ORG_EXISTS
  else
    let org : OrganizationRecord :=
      { name := name, metadata := metadata, admin := sender, employees := [],
        employee_cap := employee_cap, employee_count := 0,
        treasury := { total_deposited := 0, total_withdrawn := 0,
                      spend_limit := spend_limit },
        created_at_ms := clock_ms }
    .ok { organizations := insertA registry.organizations sender org }

/-- `add_employee`: the organization must exist and the sender must be its
admin; below the employee cap; the employee must be new; inserts an active
profile and increments `employee_count` (`count < cap < 2^64`, so the
increment cannot overflow). -/
def add_employee (registry : Registry) (org_admin employee wallet : Nat)
    (role : List Nat) (clock_ms sender : Nat) : Except Abort Registry :=
  match lookupA registry.organizations org_admin with
  | none => .error .E_ORG_MISSING
  | some org =>
    if sender ≠ org.admin then .error .E_NOT_ADMIN
    else if org.employee_cap ≤ org.employee_count then .error .E_EMPLOYEE_CAP
    else if containsA org.employees employee then .error .E_EMPLOYEE_EXISTS
    else
      let profile : EmployeeProfile :=
        { wallet := wallet, role := role, active := true,
          last_updated_ms := clock_ms }
      let org' : OrganizationRecord :=
        { org with
          employees := insertA org.employees employee profile,
          employee_count := org.employee_count + 1 }
      .ok { organizations := updateA registry.organizations org_admin org' }

/-- `update_employee_status`: admin-gated; the employee must exist; flips the
`active` flag and refreshes the timestamp. -/
def update_employee_status (registry : Registry) (org_admin employee : Nat)
    (active : Bool) (clock_ms sender : Nat) : Except Abort Registry :=
  match lookupA registry.organizations org_admin with
  | none => .error .E_ORG_MISSING
  | some org =>
    if sender ≠ org.admin then .error .E_NOT_ADMIN
    else match lookupA org.employees employee with
    | none => .error .E_EMPLOYEE_MISSING
    | some profile =>
      let profile' : EmployeeProfile :=
        { profile with active := active, last_updated_ms := clock_ms }
      let org' : OrganizationRecord :=
        { org with employees := updateA org.employees employee profile' }
      .ok { organizations := updateA registry.organizations org_admin org' }

/-- `record_deposit`: admin-gated; `total_deposited` grows by the amount and
the spend-limit invariant is then asserted. -/
def record_deposit (registry : Registry) (org_admin amount clock_ms sender : Nat) :
    Except Abort Registry :=
  match lookupA registry.organizations org_admin with
  | none => .error .E_ORG_MISSING
  | some org =>
    if sender ≠ org.admin then .error .E_NOT_ADMIN
    else if U64_MOD ≤ org.treasury.total_deposited + amount then
      .error .ARITHMETIC_OVERFLOW
    else
      let treasury' := { org.treasury with
        total_deposited := org.treasury.total_deposited + amount }
      match assert_within_limit treasury' with
      | .error e => .error e
      | .ok _ =>
        let org' : OrganizationRecord := { org with treasury := treasury' }
        .ok { organizations := updateA registry.organizations org_admin org' }

/-- `record_withdrawal`: admin-gated; the available funds (aborting on `u64`
underflow) must cover the amount before `total_withdrawn` grows by it. -/
def record_withdrawal (registry : Registry) (org_admin amount clock_ms sender : Nat) :
    Except Abort Registry :=
  match lookupA registry.organizations org_admin with
  | none => .error .E_ORG_MISSING
  | some org =>
    if sender ≠ org.admin then .error .E_NOT_ADMIN
    else if org.treasury.total_deposited < org.treasury.total_withdrawn then
      .error .ARITHMETIC_OVERFLOW
    else if org.treasury.total_deposited - org.treasury.total_withdrawn < amount then
      .error .E_TREASURY_INSUFFICIENT
    else if U64_MOD ≤ org.treasury.total_withdrawn + amount then
      .error .ARITHMETIC_OVERFLOW
    else
      let treasury' : TreasuryStats :=
        { org.treasury with
          total_withdrawn := org.treasury.total_withdrawn + amount }
      let org' : OrganizationRecord := { org with treasury := treasury' }
      .ok { organizations := updateA registry.organizations org_admin org' }

/-! #### Registry transaction sequences -/

/-- A registry entry-point call with its arguments. -/
inductive RAction where
  | reg (name metadata : List Nat) (employee_cap spend_limit clock_ms sender : Nat)
  | addEmp (org_admin employee wallet : Nat) (role : List Nat) (clock_ms sender : Nat)
  | recDep (org_admin amount clock_ms sender : Nat)
  | recWd (org_admin amount clock_ms sender : Nat)

/-- One registry transaction. -/
def stepReg (registry : Registry) : RAction → Except Abort Registry
  | .reg name metadata employee_cap spend_limit clock_ms sender =>
      register_organization registry name metadata employee_cap spend_limit
        clock_ms sender
  | .addEmp org_admin employee wallet role clock_ms sender =>
      add_employee registry org_admin employee wallet role clock_ms sender
  | .recDep org_admin amount clock_ms sender =>
      record_deposit registry org_admin amount clock_ms sender
  | .recWd org_admin amount clock_ms sender =>
      record_withdrawal registry org_admin amount clock_ms sender

/-- Whether an action is an `add_employee` call targeting organization `A`. -/
def targetsAdd (A : Nat) : RAction → Bool
  | .addEmp org_admin _ _ _ _ _ => org_admin = A
  | _ => false

/-- Runs a sequence of registry transactions (an aborted transaction leaves
the registry unchanged) and counts the successful `add_employee` calls that
target organization `A`. -/
def runReg (A : Nat) (registry : Registry) : List RAction → Registry × Nat
  | [] => (registry, 0)
  | act :: rest =>
    match stepReg registry act with
    | .ok registry' =>
      let r := runReg A registry' rest
      (r.1, r.2 + if targetsAdd A act then 1 else 0)
    | .error _ => runReg A registry rest

/-! ### Association-list lemmas -/

theorem lookupA_append {K V : Type} [DecidableEq K] (m1 m2 : List (K × V)) (k : K) :
    lookupA (m1 ++ m2) k =
      (match lookupA m1 k with | some v => some v | none => lookupA m2 k) := by
  induction m1 with
  | nil => simp [lookupA]
  | cons p rest ih =>
    obtain ⟨k0, v0⟩ := p
    by_cases h : k0 = k
    · simp [lookupA, h]
    · simp [lookupA, h, ih]

theorem lookupA_eq_none_of_not_mem (m : List (Nat × V)) (k : Nat)
    (h : k ∉ m.map Prod.fst) : lookupA m k = none := by
  induction m with
  | nil => simp [lookupA]
  | cons p rest ih =>
    obtain ⟨k0, v0⟩ := p
    simp only [List.map_cons, List.mem_cons] at h
    push_neg at h
    have h1 : ¬ k0 = k := fun hh => h.1 hh.symm
    simp [lookupA, h1, ih h.2]

theorem lookupA_isSome_iff_mem (m : List (Nat × V)) (k : Nat) :
    (lookupA m k).isSome = true ↔ k ∈ m.map Prod.fst := by
  induction m with
  | nil => simp [lookupA]
  | cons p rest ih =>
    obtain ⟨k0, v0⟩ := p
    by_cases h : k0 = k
    · simp [lookupA, h]
    · simp only [lookupA, h, if_false, List.map_cons, List.mem_cons]
      rw [ih]
      constructor
      · exact fun hh => Or.inr hh
      · rintro (hh | hh)
        · exact absurd hh.symm h
        · exact hh

theorem lookupA_insertA_of_isSome {m : List (Nat × V)} {k' : Nat} (k : Nat) (v : V)
    (h : (lookupA m k').isSome = true) :
    lookupA (insertA m k v) k' = lookupA m k' := by
  rw [insertA, lookupA_append]
  cases hh : lookupA m k' with
  | some w => simp
  | none => rw [hh] at h; simp at h

theorem lookupA_insertA_self {m : List (Nat × V)} {k : Nat} (v : V)
    (h : lookupA m k = none) : lookupA (insertA m k v) k = some v := by
  rw [insertA, lookupA_append, h]
  simp [lookupA]

theorem lookupA_insertA_ne {k k' : Nat} (m : List (Nat × V)) (v : V)
    (h : k ≠ k') : lookupA (insertA m k v) k' = lookupA m k' := by
  rw [insertA, lookupA_append]
  cases hh : lookupA m k' with
  | some w => simp
  | none => simp [lookupA, h]

theorem lookupA_updateA_self {m : List (Nat × V)} {k : Nat} (v : V)
    (h : (lookupA m k).isSome = true) : lookupA (updateA m k v) k = some v := by
  induction m with
  | nil => simp [lookupA] at h
  | cons p rest ih =>
    obtain ⟨k0, v0⟩ := p
    by_cases hk : k0 = k
    · simp [updateA, hk, lookupA]
    · simp only [lookupA, hk, if_false] at h
      simp [updateA, hk, lookupA, ih h]

theorem lookupA_updateA_ne {k k' : Nat} (m : List (Nat × V)) (v : V)
    (h : k ≠ k') : lookupA (updateA m k v) k' = lookupA m k' := by
  induction m with
  | nil => simp [updateA]
  | cons p rest ih =>
    obtain ⟨k0, v0⟩ := p
    by_cases hk : k0 = k
    · subst hk
      simp [updateA, lookupA, h, fun hh => h hh]
    · simp [updateA, hk, lookupA, ih]

theorem keys_updateA (m : List (Nat × V)) (k : Nat) (v : V) :
    (updateA m k v).map Prod.fst = m.map Prod.fst := by
  induction m with
  | nil => simp [updateA]
  | cons p rest ih =>
    obtain ⟨k0, v0⟩ := p
    by_cases hk : k0 = k
    · simp [updateA, hk]
    · simp [updateA, hk, ih]

theorem mem_updateA {m : List (Nat × V)} {k : Nat} {v : V} {p : Nat × V}
    (h : p ∈ updateA m k v) : p ∈ m ∨ p = (k, v) := by
  induction m with
  | nil => simp [updateA] at h
  | cons q rest ih =>
    obtain ⟨k0, v0⟩ := q
    by_cases hk : k0 = k
    · simp only [updateA, hk, if_true] at h
      rcases List.mem_cons.mp h with hh | hh
      · exact Or.inr hh
      · exact Or.inl (List.mem_cons_of_mem _ hh)
    · simp only [updateA, hk, if_false] at h
      rcases List.mem_cons.mp h with hh | hh
      · exact Or.inl (by simp [hh])
      · rcases ih hh with h1 | h1
        · exact Or.inl (List.mem_cons_of_mem _ h1)
        · exact Or.inr h1

theorem lookupA_removeA_ne {k k' : Nat} (m : List (Nat × V))
    (h : k ≠ k') : lookupA (removeA m k) k' = lookupA m k' := by
  induction m with
  | nil => simp [removeA]
  | cons p rest ih =>
    obtain ⟨k0, v0⟩ := p
    by_cases hk : k0 = k
    · subst hk
      simp [removeA, lookupA, fun hh => h hh]
    · simp [removeA, hk, lookupA, ih]

theorem keys_removeA_sublist (m : List (Nat × V)) (k : Nat) :
    List.Sublist ((removeA m k).map Prod.fst) (m.map Prod.fst) := by
  induction m with
  | nil => simp [removeA]
  | cons p rest ih =>
    obtain ⟨k0, v0⟩ := p
    by_cases hk : k0 = k
    · simp only [removeA, hk, if_true, List.map_cons]
      exact List.sublist_cons_of_sublist _ (List.Sublist.refl _)
    · simp only [removeA, hk, if_false, List.map_cons]
      exact List.Sublist.cons₂ _ ih

theorem lookupA_removeA_self {m : List (Nat × V)} {k : Nat}
    (h : (m.map Prod.fst).Nodup) : lookupA (removeA m k) k = none := by
  induction m with
  | nil => simp [removeA, lookupA]
  | cons p rest ih =>
    obtain ⟨k0, v0⟩ := p
    simp only [List.map_cons, List.nodup_cons] at h
    by_cases hk : k0 = k
    · subst hk
      simp only [removeA, if_true]
      exact lookupA_eq_none_of_not_mem rest k0 h.1
    · simp [removeA, hk, lookupA, ih h.2]

theorem length_removeA {m : List (Nat × V)} {k : Nat}
    (h : (lookupA m k).isSome = true) : (removeA m k).length + 1 = m.length := by
  induction m with
  | nil => simp [lookupA] at h
  | cons p rest ih =>
    obtain ⟨k0, v0⟩ := p
    by_cases hk : k0 = k
    · simp [removeA, hk]
    · simp only [lookupA, hk, if_false] at h
      simp only [removeA, hk, if_false, List.length_cons]
      rw [← ih h]

theorem keys_insertA_nodup {m : List (Nat × V)} {k : Nat} (v : V)
    (hn : (m.map Prod.fst).Nodup) (h : lookupA m k = none) :
    ((insertA m k v).map Prod.fst).Nodup := by
  have hmem : k ∉ m.map Prod.fst := by
    intro hk
    rw [← lookupA_isSome_iff_mem] at hk
    rw [h] at hk
    simp at hk
  rw [insertA, List.map_append]
  simp only [List.map_cons, List.map_nil]
  rw [List.nodup_append]
  refine ⟨hn, List.nodup_singleton k, ?_⟩
  intro a ha hb
  simp only [List.mem_singleton] at hb
  subst hb
  exact hmem ha

/-! ### Claim C7: duplicate `add_to_batch` is a silent no-op -/

/-- Claim C7: for every batch below the 500-recipient capacity and every
positive amount, if the employee is already a pending recipient then
`add_to_batch` returns without error and leaves the batch — recipients map
(including the previously stored amount), `total_amount` and balance —
entirely unchanged. -/
theorem add_to_batch_duplicate_noop (batch : PayrollBatch)
    (employee amount a0 : Nat)
    (hcap : batch.recipients.length < MAX_BATCH_SIZE)
    (hpos : 0 < amount)
    (hdup : lookupA batch.recipients employee = some a0) :
    add_to_batch batch employee amount = .ok batch := by
  have h1 : ¬ amount = 0 := by omega
  have h2 : ¬ MAX_BATCH_SIZE ≤ batch.recipients.length := by omega
  have h3 : containsA batch.recipients employee = true := by
    simp [containsA, hdup]
  simp [add_to_batch, h1, h2, h3]

/-- Concrete batch used to witness claim C7. -/
def batchC7 : PayrollBatch :=
  { organization := 1, balance := 100, recipients := [(2, 10)],
    total_amount := 10, created_at_ms := 0 }

theorem add_to_batch_duplicate_noop_witness :
    add_to_batch batchC7 2 25 = .ok batchC7 :=
  add_to_batch_duplicate_noop batchC7 2 25 10 (by decide) (by decide) (by rfl)

/-! ### Claim C10: `transfer_funds` conserves the pair of balances -/

/-- Claim C10: a successful `transfer_funds` moves exactly `amount` from the
source balance to the destination balance in one atomic step (so the sum of
the two balances is conserved), grows the source's `total_withdrawn` and the
destination's `total_deposited` by exactly `amount`, and leaves every other
field of both wallets unchanged. -/
theorem transfer_funds_conserves_pair
    (from_wallet to_wallet : EmployeeWallet) (amount clock_ms caller : Nat)
    (hauth : caller = from_wallet.owner)
    (hpos : 0 < amount)
    (hbal : amount ≤ from_wallet.balance)
    (hov1 : to_wallet.balance + amount < U64_MOD)
    (hov2 : from_wallet.total_withdrawn + amount < U64_MOD)
    (hov3 : to_wallet.total_deposited + amount < U64_MOD) :
    transfer_funds from_wallet to_wallet amount clock_ms caller =
      .ok ({ from_wallet with
              balance := from_wallet.balance - amount,
              total_withdrawn := from_wallet.total_withdrawn + amount },
           { to_wallet with
              balance := to_wallet.balance + amount,
              total_deposited := to_wallet.total_deposited + amount }) ∧
    (from_wallet.balance - amount) + (to_wallet.balance + amount) =
      from_wallet.balance + to_wallet.balance := by
  constructor
  · have h1 : ¬ caller ≠ from_wallet.owner := by simp [hauth]
    have h2 : ¬ amount = 0 := by omega
    have h3 : ¬ from_wallet.balance < amount := by omega
    have h4 : ¬ U64_MOD ≤ to_wallet.balance + amount := by omega
    have h5 : ¬ U64_MOD ≤ from_wallet.total_withdrawn + amount := by omega
    have h6 : ¬ U64_MOD ≤ to_wallet.total_deposited + amount := by omega
    simp [transfer_funds, h1, h2, h3, h4, h5, h6]
  · omega

/-- Concrete wallets used to witness claim C10. -/
def fromW10 : EmployeeWallet :=
  { owner := 7, organization := 1, balance := 300, total_deposited := 300,
    total_withdrawn := 0, created_at_ms := 5 }

/-- Concrete destination wallet used to witness claim C10. -/
def toW10 : EmployeeWallet :=
  { owner := 8, organization := 1, balance := 40, total_deposited := 40,
    total_withdrawn := 0, created_at_ms := 6 }

theorem transfer_funds_conserves_pair_witness :
    transfer_funds fromW10 toW10 100 0 7 =
      .ok ({ fromW10 with
              balance := fromW10.balance - 100,
              total_withdrawn := fromW10.total_withdrawn + 100 },
           { toW10 with
              balance := toW10.balance + 100,
              total_deposited := toW10.total_deposited + 100 }) ∧
    (fromW10.balance - 100) + (toW10.balance + 100) =
      fromW10.balance + toW10.balance :=
  transfer_funds_conserves_pair fromW10 toW10 100 0 7 (by rfl) (by decide)
    (by decide) (by decide) (by decide) (by decide)

/-! ### Claim C4: commitment and nullifier replay protection -/

/-- Claim C4: a second deposit presenting an already-recorded commitment (with
the correct denomination) fails with the commitment-exists error and leaves
the pool unchanged, and a second withdraw presenting an already-spent
nullifier fails with the replay error and leaves the pool unchanged. -/
theorem pool_replay_protection (oracle : Oracle) (pool : PrivacyPool)
    (amount recipient clock_ms : Nat)
    (commitment nullifier proof root : List Nat) :
    (containsA pool.commitments commitment = true →
     amount = pool.denomination →
       deposit_pool pool amount commitment clock_ms = .error .E_COMMITMENT_EXISTS ∧
       runPool oracle pool [.dep amount commitment clock_ms] = (pool, 0, 0)) ∧
    (containsA pool.nullifiers nullifier = true →
       withdraw_pool oracle pool nullifier recipient proof root clock_ms =
         .error .E_NULLIFIER_SPENT ∧
       runPool oracle pool [.wd nullifier recipient proof root clock_ms] =
         (pool, 0, 0)) := by
  constructor
  · intro hc hamt
    have hdep : deposit_pool pool amount commitment clock_ms =
        .error .E_COMMITMENT_EXISTS := by
      have h1 : ¬ amount ≠ pool.denomination := by simp [hamt]
      simp [deposit_pool, h1, hc]
    refine ⟨hdep, ?_⟩
    simp [runPool, stepPool, hdep]
  · intro hn
    have hwd : withdraw_pool oracle pool nullifier recipient proof root clock_ms =
        .error .E_NULLIFIER_SPENT := by
      simp [withdraw_pool, hn]
    refine ⟨hwd, ?_⟩
    simp [runPool, stepPool, hwd]

/-- Concrete pool used to witness claim C4: denomination 1000, one
recorded commitment `[1]`, one spent nullifier `[2]`, root `[7]`. -/
def poolC4 : PrivacyPool :=
  { balance := 1000, commitments := [([1], true)], nullifiers := [([2], true)],
    merkle_root := [7], total_deposits := 1000, total_withdrawals := 0,
    denomination := 1000 }

theorem pool_replay_protection_witness :
    (deposit_pool poolC4 1000 [1] 3 = .error .E_COMMITMENT_EXISTS ∧
     runPool (fun _ _ _ => true) poolC4 [.dep 1000 [1] 3] = (poolC4, 0, 0)) ∧
    (withdraw_pool (fun _ _ _ => true) poolC4 [2] 9 [5] [7] 3 =
       .error .E_NULLIFIER_SPENT ∧
     runPool (fun _ _ _ => true) poolC4 [.wd [2] 9 [5] [7] 3] = (poolC4, 0, 0)) :=
  ⟨(pool_replay_protection (fun _ _ _ => true) poolC4 1000 9 3 [1] [2] [5] [7]).1
     (by decide) (by decide),
   (pool_replay_protection (fun _ _ _ => true) poolC4 1000 9 3 [1] [2] [5] [7]).2
     (by decide)⟩

/-! ### Claim C2: the proof oracle is never consulted (code bug) -/

/-- An oracle that rejects every proof. -/
def rejectingOracle : Oracle := fun _ _ _ => false

/-- Claim C2 (code bug): the source's `verify_proof` is an empty placeholder
that never consults the external oracle and never aborts, and the constant
`E_INVALID_PROOF` is never raised.  Evaluating the code at a concrete input
under an oracle that rejects every proof: the full deposit / root-update /
withdraw scenario still succeeds (one successful deposit and one successful
withdrawal, the pool paying out the denomination). -/
theorem withdraw_succeeds_despite_rejecting_oracle :
    runPool rejectingOracle
      { balance := 0, commitments := [], nullifiers := [], merkle_root := [],
        total_deposits := 0, total_withdrawals := 0, denomination := 1000 }
      [.dep 1000 [1] 0, .root [7] 1, .wd [2] 9 [3] [7] 2] =
    ({ balance := 0, commitments := [([1], true)], nullifiers := [([2], true)],
       merkle_root := [7], total_deposits := 1000, total_withdrawals := 1000,
       denomination := 1000 }, 1, 1) := by
  rfl

/-! ### Claim C9: `batch_execute_payroll` refines `execute_payroll_single` -/

/-- Modelled from the spec: the behavior of `batchExecute` as the spec words
it — fails `NotFoundError` unless the wallet owner is a pending recipient,
fails `InsufficientFundsError` unless the batch balance covers the pending
amount, removes the recipient entry, deducts exactly that amount from the
batch balance, and returns the payment amount to the caller. -/
def batchExecuteSpec (batch : PayrollBatch) (wallet : EmployeeWallet) :
    Except Abort (PayrollBatch × Nat) :=
  match lookupA batch.recipients wallet.owner with
  | none => .error .E_PAYROLL_NOT_FOUND
  | some pendingAmount =>
    if batch.balance < pendingAmount then .error .E_INSUFFICIENT_BALANCE_P
    else .ok ({ batch with
                recipients := removeA batch.recipients wallet.owner,
                balance := batch.balance - pendingAmount }, pendingAmount)

/-- Claim C9: `batch_execute_payroll` coincides with the spec's description
(same `NotFound` / `InsufficientFunds` preconditions as steps 1-2 of
`execute_payroll_single`, same removal and deduction on the batch, returning
the payment amount), its two error outcomes coincide with those of
`execute_payroll_single`, and whenever `execute_payroll_single` succeeds,
`batch_execute_payroll` produces the identical batch and returns the amount
the wallet was credited with — instead of crediting the wallet or appending a
`PayrollRun` record. -/
theorem batch_execute_refines_single (registry : PayrollRegistry)
    (batch : PayrollBatch) (wallet : EmployeeWallet) (clock_ms sender : Nat) :
    batch_execute_payroll batch wallet = batchExecuteSpec batch wallet ∧
    (batch_execute_payroll batch wallet = .error .E_PAYROLL_NOT_FOUND ↔
       execute_payroll_single registry batch wallet clock_ms sender =
         .error .E_PAYROLL_NOT_FOUND) ∧
    (batch_execute_payroll batch wallet = .error .E_INSUFFICIENT_BALANCE_P ↔
       execute_payroll_single registry batch wallet clock_ms sender =
         .error .E_INSUFFICIENT_BALANCE_P) ∧
    (∀ registry' batch' wallet',
       execute_payroll_single registry batch wallet clock_ms sender =
         .ok (registry', batch', wallet') →
       ∃ a, batch_execute_payroll batch wallet = .ok (batch', a) ∧
         wallet'.balance = wallet.balance + a) := by
  cases hlk : lookupA batch.recipients wallet.owner with
  | none =>
    refine ⟨?_, ?_, ?_, ?_⟩
    · simp [batch_execute_payroll, batchExecuteSpec, hlk]
    · simp [batch_execute_payroll, execute_payroll_single, hlk]
    · simp [batch_execute_payroll, execute_payroll_single, hlk]
    · intro registry' batch' wallet' h
      simp [execute_payroll_single, hlk] at h
  | some a =>
    by_cases hbal : batch.balance < a
    · refine ⟨?_, ?_, ?_, ?_⟩
      · simp [batch_execute_payroll, batchExecuteSpec, hlk, hbal]
      · simp [batch_execute_payroll, execute_payroll_single, hlk, hbal]
      · simp [batch_execute_payroll, execute_payroll_single, hlk, hbal]
      · intro registry' batch' wallet' h
        simp [execute_payroll_single, hlk, hbal] at h
    · have hbx : batch_execute_payroll batch wallet =
          .ok ({ batch with
                 recipients := removeA batch.recipients wallet.owner,
                 balance := batch.balance - a }, a) := by
        simp [batch_execute_payroll, hlk, hbal]
      refine ⟨?_, ?_, ?_, ?_⟩
      · simp [batch_execute_payroll, batchExecuteSpec, hlk, hbal]
      · constructor
        · intro h; rw [hbx] at h; simp at h
        · intro h
          exfalso
          simp only [execute_payroll_single, hlk, if_neg hbal] at h
          cases hdw : deposit_w wallet a clock_ms with
          | error e =>
            rw [hdw] at h
            simp only [deposit_w] at hdw
            by_cases h0 : a = 0
            · simp [h0] at hdw
              simp [← hdw] at h
            · by_cases h1 : U64_MOD ≤ wallet.balance + a
              · simp [h0, h1] at hdw
                simp [← hdw] at h
              · by_cases h2 : U64_MOD ≤ wallet.total_deposited + a
                · simp [h0, h1, h2] at hdw
                  simp [← hdw] at h
                · simp [h0, h1, h2] at hdw
          | ok w' =>
            rw [hdw] at h
            by_cases h3 : U64_MOD ≤ registry.next_run_id + 1
            · simp [h3] at h
            · by_cases h4 : containsA registry.payroll_runs registry.next_run_id
              · simp [h3, h4] at h
              · simp [h3, h4] at h
      · constructor
        · intro h; rw [hbx] at h; simp at h
        · intro h
          exfalso
          simp only [execute_payroll_single, hlk, if_neg hbal] at h
          cases hdw : deposit_w wallet a clock_ms with
          | error e =>
            rw [hdw] at h
            simp only [deposit_w] at hdw
            by_cases h0 : a = 0
            · simp [h0] at hdw
              simp [← hdw] at h
            · by_cases h1 : U64_MOD ≤ wallet.balance + a
              · simp [h0, h1] at hdw
                simp [← hdw] at h
              · by_cases h2 : U64_MOD ≤ wallet.total_deposited + a
                · simp [h0, h1, h2] at hdw
                  simp [← hdw] at h
                · simp [h0, h1, h2] at hdw
          | ok w' =>
            rw [hdw] at h
            by_cases h3 : U64_MOD ≤ registry.next_run_id + 1
            · simp [h3] at h
            · by_cases h4 : containsA registry.payroll_runs registry.next_run_id
              · simp [h3, h4] at h
              · simp [h3, h4] at h
      · intro registry' batch' wallet' h
        simp only [execute_payroll_single, hlk, if_neg hbal] at h
        cases hdw : deposit_w wallet a clock_ms with
        | error e => rw [hdw] at h; simp at h
        | ok w' =>
          rw [hdw] at h
          by_cases h3 : U64_MOD ≤ registry.next_run_id + 1
          · simp [h3] at h
          · by_cases h4 : containsA registry.payroll_runs registry.next_run_id
            · simp [h3, h4] at h
            · simp only [if_neg h3, h4, Bool.false_eq_true, if_false,
                Except.ok.injEq, Prod.mk.injEq] at h
              obtain ⟨hr, hb, hw⟩ := h
              have hwb : w'.balance = wallet.balance + a := by
                simp only [deposit_w] at hdw
                split_ifs at hdw with c1 c2 c3
                cases hdw
                rfl
              refine ⟨a, ?_, ?_⟩
              · rw [hbx, ← hb]
              · rw [← hw, hwb]

/-- Concrete payroll registry used to witness claim C9. -/
def regC9 : PayrollRegistry := { payroll_runs := [], next_run_id := 0 }

/-- Concrete batch used to witness claim C9. -/
def batchC9 : PayrollBatch :=
  { organization := 1, balance := 10000, recipients := [(21, 1000), (22, 1500)],
    total_amount := 2500, created_at_ms := 0 }

/-- Concrete wallet used to witness claim C9. -/
def walC9 : EmployeeWallet :=
  { owner := 21, organization := 1, balance := 0, total_deposited := 0,
    total_withdrawn := 0, created_at_ms := 0 }

/-- The `PayrollRun` record produced by the witnessed call for claim C9. -/
def runRecC9 : PayrollRun :=
  { run_id := 0, organization := 1, executor := 9, total_amount := 1000,
    employee_count := 1, executed_at_ms := 5, status := 1 }

/-- Registry state after the witnessed `execute_payroll_single` call. -/
def regC9r : PayrollRegistry :=
  { payroll_runs := [(0, runRecC9)], next_run_id := 1 }

/-- Batch state after the witnessed `execute_payroll_single` call. -/
def batchC9r : PayrollBatch :=
  { organization := 1, balance := 9000, recipients := [(22, 1500)],
    total_amount := 2500, created_at_ms := 0 }

/-- Wallet state after the witnessed `execute_payroll_single` call. -/
def walC9r : EmployeeWallet :=
  { owner := 21, organization := 1, balance := 1000, total_deposited := 1000,
    total_withdrawn := 0, created_at_ms := 0 }

theorem batch_execute_refines_single_witness :
    batch_execute_payroll batchC9 walC9 = .ok (batchC9r, 1000) ∧
    walC9r.balance = walC9.balance + 1000 := by
  obtain ⟨a, ha1, ha2⟩ :=
    (batch_execute_refines_single regC9 batchC9 walC9 5 9).2.2.2
      regC9r batchC9r walC9r (by rfl)
  have hx : (Except.ok (batchC9r, a) : Except Abort (PayrollBatch × Nat)) =
      Except.ok (batchC9r, 1000) := by
    rw [← ha1]; rfl
  simp only [Except.ok.injEq, Prod.mk.injEq] at hx
  obtain ⟨-, ha⟩ := hx
  subst ha
  exact ⟨ha1, ha2⟩

/-! ### Claim C1: privacy-pool conservation -/

/-- The pool invariant carried along a run: denomination `D`, `n` deposits and
`m` withdrawals so far. -/
def PoolInv (D n m : Nat) (pool : PrivacyPool) : Prop :=
  pool.denomination = D ∧ pool.total_deposits = n * D ∧
  pool.total_withdrawals = m * D ∧ m ≤ n ∧ pool.balance = (n - m) * D

theorem deposit_pool_inv {D n m : Nat} {pool pool' : PrivacyPool}
    {amount clock_ms : Nat} {commitment : List Nat}
    (h : PoolInv D n m pool)
    (hs : deposit_pool pool amount commitment clock_ms = .ok pool') :
    PoolInv D (n + 1) m pool' := by
  obtain ⟨hd, ht, hw, hmn, hb⟩ := h
  simp only [deposit_pool] at hs
  split_ifs at hs with h1 h2 h3 h4
  simp only [not_not] at h1
  cases hs
  refine ⟨hd, ?_, hw, by omega, ?_⟩
  · simp only [ht, h1, hd, Nat.succ_mul]
  · have hnm : n + 1 - m = (n - m) + 1 := by omega
    simp only [hb, h1, hd, hnm, Nat.succ_mul]

theorem withdraw_pool_inv {D n m : Nat} {pool pool' : PrivacyPool}
    {oracle : Oracle} {nullifier proof root : List Nat}
    {recipient clock_ms : Nat}
    (hD : 0 < D) (h : PoolInv D n m pool)
    (hs : withdraw_pool oracle pool nullifier recipient proof root clock_ms =
      .ok pool') :
    PoolInv D n (m + 1) pool' := by
  obtain ⟨hd, ht, hw, hmn, hb⟩ := h
  simp only [withdraw_pool, verify_proof] at hs
  split_ifs at hs with h1 h2 h3 h4
  cases hs
  have hlt : m < n := by
    rcases Nat.lt_or_ge m n with hh | hh
    · exact hh
    · exfalso
      have hnm : n - m = 0 := by omega
      rw [hb, hnm] at h3
      simp [hd] at h3
      omega
  refine ⟨hd, ht, ?_, by omega, ?_⟩
  · simp only [hw, hd, Nat.succ_mul]
  · have hnm : n - m = (n - (m + 1)) + 1 := by omega
    simp only [hb, hd, hnm, Nat.succ_mul]
    omega

theorem runPool_inv {D : Nat} (hD : 0 < D) (oracle : Oracle) :
    ∀ (acts : List PAction) (pool : PrivacyPool) (n m : Nat),
      PoolInv D n m pool →
      PoolInv D (n + (runPool oracle pool acts).2.1)
        (m + (runPool oracle pool acts).2.2) (runPool oracle pool acts).1 := by
  intro acts
  induction acts with
  | nil => intro pool n m h; simpa [runPool] using h
  | cons act rest ih =>
    intro pool n m h
    cases hstep : stepPool oracle pool act with
    | error e =>
      simpa [runPool, hstep] using ih pool n m h
    | ok pool' =>
      cases act with
      | dep amount commitment clock_ms =>
        have hstep' : deposit_pool pool amount commitment clock_ms = .ok pool' :=
          hstep
        have h' := deposit_pool_inv h hstep'
        have := ih pool' (n + 1) m h'
        simp only [runPool, hstep]
        have harith : ∀ x : Nat, n + 1 + x = n + (x + 1) := by omega
        simpa [harith] using this
      | wd nullifier recipient proof root clock_ms =>
        have hstep' : withdraw_pool oracle pool nullifier recipient proof root
            clock_ms = .ok pool' := hstep
        have h' := withdraw_pool_inv hD h hstep'
        have := ih pool' n (m + 1) h'
        simp only [runPool, hstep]
        have harith : ∀ x : Nat, m + 1 + x = m + (x + 1) := by omega
        simpa [harith] using this
      | root new_root clock_ms =>
        have h' : PoolInv D n m pool' := by
          simp only [stepPool, update_merkle_root, Except.ok.injEq] at hstep
          obtain ⟨hd, ht, hw, hmn, hb⟩ := h
          exact ⟨by rw [← hstep]; exact hd, by rw [← hstep]; exact ht,
                 by rw [← hstep]; exact hw, hmn, by rw [← hstep]; exact hb⟩
        have := ih pool' n m h'
        simpa [runPool, hstep] using this

/-- Claim C1: for a pool initialized with denomination `D`, after any sequence
of pool transactions in which `n` deposits and `m` withdrawals succeed, the
pool balance equals `n*D − m*D`, `total_deposits` equals `n*D`,
`total_withdrawals` equals `m*D`, and `m ≤ n` — the pool can never pay out
more than was deposited. -/
theorem privacy_pool_conservation (D clock_ms : Nat) (pool : PrivacyPool)
    (oracle : Oracle) (acts : List PAction)
    (hinit : init_pool D clock_ms = .ok pool) :
    (runPool oracle pool acts).1.balance =
      (runPool oracle pool acts).2.1 * D - (runPool oracle pool acts).2.2 * D ∧
    (runPool oracle pool acts).1.total_deposits =
      (runPool oracle pool acts).2.1 * D ∧
    (runPool oracle pool acts).1.total_withdrawals =
      (runPool oracle pool acts).2.2 * D ∧
    (runPool oracle pool acts).2.2 ≤ (runPool oracle pool acts).2.1 := by
  simp only [init_pool] at hinit
  split_ifs at hinit with h0
  have hD : 0 < D := by omega
  cases hinit
  have hbase : PoolInv D 0 0 (⟨0, [], [], [], 0, 0, D⟩ : PrivacyPool) :=
    ⟨rfl, by simp, by simp, Nat.le_refl 0, by simp⟩
  have h := runPool_inv hD oracle acts _ 0 0 hbase
  obtain ⟨hd, ht, hw, hmn, hb⟩ := h
  simp only [Nat.zero_add] at ht hw hmn hb
  exact ⟨by rw [hb, Nat.sub_mul], ht, hw, hmn⟩

/-- Pool state right after `init_pool 1000`, used to witness claim C1. -/
def poolC1 : PrivacyPool :=
  { balance := 0, commitments := [], nullifiers := [], merkle_root := [],
    total_deposits := 0, total_withdrawals := 0, denomination := 1000 }

/-- Action list used to witness claim C1: two deposits, a root update, one
withdrawal, and a replayed deposit that fails. -/
def actsC1 : List PAction :=
  [.dep 1000 [1] 0, .dep 1000 [2] 1, .dep 1000 [1] 2, .root [7] 3,
   .wd [9] 5 [4] [7] 4]

theorem privacy_pool_conservation_witness :
    (runPool (fun _ _ _ => true) poolC1 actsC1).1.balance =
      (runPool (fun _ _ _ => true) poolC1 actsC1).2.1 * 1000 -
      (runPool (fun _ _ _ => true) poolC1 actsC1).2.2 * 1000 ∧
    (runPool (fun _ _ _ => true) poolC1 actsC1).1.total_deposits =
      (runPool (fun _ _ _ => true) poolC1 actsC1).2.1 * 1000 ∧
    (runPool (fun _ _ _ => true) poolC1 actsC1).1.total_withdrawals =
      (runPool (fun _ _ _ => true) poolC1 actsC1).2.2 * 1000 ∧
    (runPool (fun _ _ _ => true) poolC1 actsC1).2.2 ≤
      (runPool (fun _ _ _ => true) poolC1 actsC1).2.1 :=
  privacy_pool_conservation 1000 0 poolC1 (fun _ _ _ => true) actsC1 (by rfl)

/-! ### Claim C3: wallet balance invariant -/

/-- The per-wallet accounting invariant, in overflow-free form:
`balance + total_withdrawn = total_deposited` (equivalently
`balance = total_deposited − total_withdrawn` with a non-negative balance). -/
def WalletInv (w : EmployeeWallet) : Prop :=
  w.balance + w.total_withdrawn = w.total_deposited

theorem create_wallet_inv (owner organization clock_ms : Nat) :
    WalletInv (create_wallet owner organization clock_ms) := by
  simp [WalletInv, create_wallet]

theorem deposit_w_inv {w w' : EmployeeWallet} {amount clock_ms : Nat}
    (h : WalletInv w) (hs : deposit_w w amount clock_ms = .ok w') :
    WalletInv w' := by
  simp only [deposit_w] at hs
  split_ifs at hs with h1 h2 h3
  cases hs
  simp only [WalletInv] at h ⊢
  omega

theorem withdraw_w_inv {w w' : EmployeeWallet} {amount clock_ms caller : Nat}
    (h : WalletInv w) (hs : withdraw_w w amount clock_ms caller = .ok w') :
    WalletInv w' ∧ amount ≤ w.balance ∧ w'.balance + amount = w.balance := by
  simp only [withdraw_w] at hs
  split_ifs at hs with h1 h2 h3 h4
  cases hs
  simp only [WalletInv] at h ⊢
  refine ⟨by omega, by omega, by omega⟩

theorem transfer_funds_inv {wf wt : EmployeeWallet}
    {amount clock_ms caller : Nat} {q : EmployeeWallet × EmployeeWallet}
    (hf : WalletInv wf) (ht : WalletInv wt)
    (hs : transfer_funds wf wt amount clock_ms caller = .ok q) :
    WalletInv q.1 ∧ WalletInv q.2 ∧ amount ≤ wf.balance ∧
    q.1.balance + amount = wf.balance := by
  simp only [transfer_funds] at hs
  split_ifs at hs with h1 h2 h3 h4 h5 h6
  cases hs
  simp only [WalletInv] at hf ht ⊢
  refine ⟨by omega, by omega, by omega, by omega⟩

theorem mem_of_lookupA {V : Type} {m : List (Nat × V)} {k : Nat} {v : V}
    (h : lookupA m k = some v) : (k, v) ∈ m := by
  induction m with
  | nil => simp [lookupA] at h
  | cons p rest ih =>
    obtain ⟨k0, v0⟩ := p
    by_cases hk : k0 = k
    · simp only [lookupA, hk, if_true, Option.some.injEq] at h
      simp [hk, h]
    · simp only [lookupA, hk, if_false] at h
      exact List.mem_cons_of_mem _ (ih h)

/-- All wallets in a store satisfy the accounting invariant. -/
def WInvAll (st : List (Nat × EmployeeWallet)) : Prop :=
  ∀ p ∈ st, WalletInv p.2

theorem winvall_insertA {st : List (Nat × EmployeeWallet)} {k : Nat}
    {w : EmployeeWallet} (h : WInvAll st) (hw : WalletInv w) :
    WInvAll (insertA st k w) := by
  intro p hp
  rw [insertA] at hp
  rcases List.mem_append.mp hp with hh | hh
  · exact h p hh
  · simp only [List.mem_singleton] at hh
    subst hh
    exact hw

theorem winvall_updateA {st : List (Nat × EmployeeWallet)} {k : Nat}
    {w : EmployeeWallet} (h : WInvAll st) (hw : WalletInv w) :
    WInvAll (updateA st k w) := by
  intro p hp
  rcases mem_updateA hp with hh | hh
  · exact h p hh
  · subst hh
    exact hw

theorem stepW_inv {st st' : List (Nat × EmployeeWallet)} {act : WAction}
    (h : WInvAll st) (hs : stepW st act = .ok st') : WInvAll st' := by
  cases act with
  | create walletId owner organization clock_ms =>
    simp only [stepW] at hs
    split_ifs at hs with h1
    cases hs
    exact winvall_insertA h (create_wallet_inv owner organization clock_ms)
  | dep walletId amount clock_ms =>
    cases hlk : lookupA st walletId with
    | none => simp only [stepW, hlk] at hs; cases hs
    | some w =>
      cases hdw : deposit_w w amount clock_ms with
      | error e => simp only [stepW, hlk, hdw] at hs; cases hs
      | ok w' =>
        simp only [stepW, hlk, hdw, Except.ok.injEq] at hs
        subst hs
        exact winvall_updateA h
          (deposit_w_inv (h _ (mem_of_lookupA hlk)) hdw)
  | wd walletId amount clock_ms caller =>
    cases hlk : lookupA st walletId with
    | none => simp only [stepW, hlk] at hs; cases hs
    | some w =>
      cases hdw : withdraw_w w amount clock_ms caller with
      | error e => simp only [stepW, hlk, hdw] at hs; cases hs
      | ok w' =>
        simp only [stepW, hlk, hdw, Except.ok.injEq] at hs
        subst hs
        exact winvall_updateA h
          ((withdraw_w_inv (h _ (mem_of_lookupA hlk)) hdw).1)
  | xfer fromId toId amount clock_ms caller =>
    by_cases h1 : fromId = toId
    · simp only [stepW, if_pos h1] at hs
      cases hs
    · cases hlkf : lookupA st fromId with
      | none => simp only [stepW, if_neg h1, hlkf] at hs; cases hs
      | some wf =>
        cases hlkt : lookupA st toId with
        | none => simp only [stepW, if_neg h1, hlkf, hlkt] at hs; cases hs
        | some wt =>
          cases htr : transfer_funds wf wt amount clock_ms caller with
          | error e => simp only [stepW, if_neg h1, hlkf, hlkt, htr] at hs; cases hs
          | ok q =>
            simp only [stepW, if_neg h1, hlkf, hlkt, htr, Except.ok.injEq] at hs
            subst hs
            have hq := transfer_funds_inv (h _ (mem_of_lookupA hlkf))
              (h _ (mem_of_lookupA hlkt)) htr
            exact winvall_updateA (winvall_updateA h hq.1) hq.2.1

theorem runW_inv {st : List (Nat × EmployeeWallet)} {acts : List WAction}
    (h : WInvAll st) : WInvAll (runW st acts) := by
  induction acts generalizing st with
  | nil => simpa [runW] using h
  | cons act rest ih =>
    cases hstep : stepW st act with
    | error e => simpa [runW, hstep] using ih h
    | ok st' => simpa [runW, hstep] using ih (stepW_inv h hstep)

/-- Claim C3: starting from an empty wallet store, after any sequence of
`create_wallet`, `deposit`, `withdraw` and `transfer_funds` operations every
wallet satisfies `balance + total_withdrawn = total_deposited` (so
`balance = total_deposited − total_withdrawn` and is never negative), and no
successful `withdraw` or `transfer_funds` ever moves more than the available
balance: each requires `balance ≥ amount` and subtracts exactly the amount. -/
theorem wallet_balance_invariant (acts : List WAction) :
    (∀ p ∈ runW [] acts, p.2.balance + p.2.total_withdrawn = p.2.total_deposited) ∧
    (∀ (w w' : EmployeeWallet) (amount clock_ms caller : Nat),
       withdraw_w w amount clock_ms caller = .ok w' →
       amount ≤ w.balance ∧ w'.balance + amount = w.balance) ∧
    (∀ (wf wt : EmployeeWallet) (amount clock_ms caller : Nat)
       (q : EmployeeWallet × EmployeeWallet),
       transfer_funds wf wt amount clock_ms caller = .ok q →
       amount ≤ wf.balance ∧ q.1.balance + amount = wf.balance) := by
  refine ⟨?_, ?_, ?_⟩
  · have h : WInvAll (runW [] acts) := runW_inv (by intro p hp; cases hp)
    exact fun p hp => h p hp
  · intro w w' amount clock_ms caller hs
    simp only [withdraw_w] at hs
    split_ifs at hs with h1 h2 h3 h4
    cases hs
    refine ⟨by omega, ?_⟩
    show w.balance - amount + amount = w.balance
    omega
  · intro wf wt amount clock_ms caller q hs
    simp only [transfer_funds] at hs
    split_ifs at hs with h1 h2 h3 h4 h5 h6
    cases hs
    refine ⟨by omega, ?_⟩
    show wf.balance - amount + amount = wf.balance
    omega

/-- Concrete action list used to witness claim C3: two wallets, a deposit, a
withdrawal, a transfer, and a failing over-withdrawal that leaves no trace. -/
def actsC3 : List WAction :=
  [.create 1 10 99 0, .create 2 11 99 0, .dep 1 500 1, .wd 1 200 2 10,
   .xfer 1 2 100 3 10, .wd 2 5000 4 11]

/-- Wallet 1's state after running `actsC3`, used to witness claim C3. -/
def w1C3 : EmployeeWallet :=
  { owner := 10, organization := 99, balance := 200, total_deposited := 500,
    total_withdrawn := 300, created_at_ms := 0 }

theorem wallet_balance_invariant_witness :
    w1C3.balance + w1C3.total_withdrawn = w1C3.total_deposited ∧
    200 ≤ (500 : Nat) := by
  refine ⟨(wallet_balance_invariant actsC3).1 (1, w1C3) (by decide), ?_⟩
  have h := (wallet_balance_invariant actsC3).2.1
    { owner := 10, organization := 99, balance := 500, total_deposited := 500,
      total_withdrawn := 0, created_at_ms := 0 }
    { owner := 10, organization := 99, balance := 300, total_deposited := 500,
      total_withdrawn := 200, created_at_ms := 0 }
    200 2 10 (by rfl)
  exact h.1

/-! ### Claim C5: single payroll execution -/

/-- Claim C5: for an employee pending in a batch with amount `a` (the
recipient keys being distinct, as `vec_map` guarantees), a successful
`execute_payroll_single` for that employee's wallet removes the pending entry
(consumed exactly once), decreases the batch balance by exactly `a`, increases
the wallet balance by exactly `a`, and appends one `PayrollRun` record under
the next run id; a second call for the same employee then fails with the
not-found error; and if the batch balance is below `a` the call fails with the
insufficient-funds error, the `Except` semantics leaving all three objects
unchanged on every failure (atomicity). -/
theorem execute_single_behavior (registry : PayrollRegistry)
    (batch : PayrollBatch) (wallet : EmployeeWallet) (clock_ms sender a : Nat)
    (hnodup : (batch.recipients.map Prod.fst).Nodup)
    (hpend : lookupA batch.recipients wallet.owner = some a) :
    (batch.balance < a →
       execute_payroll_single registry batch wallet clock_ms sender =
         .error .E_INSUFFICIENT_BALANCE_P) ∧
    (a ≤ batch.balance → 0 < a →
     wallet.balance + a < U64_MOD → wallet.total_deposited + a < U64_MOD →
     registry.next_run_id + 1 < U64_MOD →
     containsA registry.payroll_runs registry.next_run_id = false →
     ∃ registry' batch' wallet',
       execute_payroll_single registry batch wallet clock_ms sender =
         .ok (registry', batch', wallet') ∧
       batch'.recipients = removeA batch.recipients wallet.owner ∧
       lookupA batch'.recipients wallet.owner = none ∧
       batch'.balance + a = batch.balance ∧
       wallet'.balance = wallet.balance + a ∧
       registry'.payroll_runs = insertA registry.payroll_runs
         registry.next_run_id
         { run_id := registry.next_run_id, organization := batch.organization,
           executor := sender, total_amount := a, employee_count := 1,
           executed_at_ms := clock_ms, status := 1 } ∧
       registry'.next_run_id = registry.next_run_id + 1 ∧
       execute_payroll_single registry' batch' wallet' clock_ms sender =
         .error .E_PAYROLL_NOT_FOUND) := by
  constructor
  · intro hlt
    simp only [execute_payroll_single, hpend, if_pos hlt]
  · intro hba hpos hov1 hov2 hovr hfresh
    have hnlt : ¬ batch.balance < a := by omega
    have hdw : deposit_w wallet a clock_ms = .ok { wallet with
        balance := wallet.balance + a,
        total_deposited := wallet.total_deposited + a } := by
      have c1 : ¬ a = 0 := by omega
      have c2 : ¬ U64_MOD ≤ wallet.balance + a := by omega
      have c3 : ¬ U64_MOD ≤ wallet.total_deposited + a := by omega
      simp [deposit_w, c1, c2, c3]
    have hrun : ¬ U64_MOD ≤ registry.next_run_id + 1 := by omega
    have hrm : lookupA (removeA batch.recipients wallet.owner) wallet.owner =
        none := lookupA_removeA_self hnodup
    have hex : execute_payroll_single registry batch wallet clock_ms sender =
        .ok ({ payroll_runs := insertA registry.payroll_runs
                 registry.next_run_id
                 { run_id := registry.next_run_id,
                   organization := batch.organization, executor := sender,
                   total_amount := a, employee_count := 1,
                   executed_at_ms := clock_ms, status := 1 },
               next_run_id := registry.next_run_id + 1 },
             { batch with
               balance := batch.balance - a,
               recipients := removeA batch.recipients wallet.owner },
             { wallet with
               balance := wallet.balance + a,
               total_deposited := wallet.total_deposited + a }) := by
      simp only [execute_payroll_single, hpend, if_neg hnlt, hdw,
        if_neg hrun, hfresh, Bool.false_eq_true, if_false]
    refine ⟨_, _, _, hex, rfl, hrm, ?_, rfl, rfl, rfl, ?_⟩
    · show batch.balance - a + a = batch.balance
      omega
    · simp only [execute_payroll_single, hrm]

/-- Concrete registry used to witness claim C5. -/
def regC5 : PayrollRegistry := { payroll_runs := [], next_run_id := 0 }

/-- Concrete batch used to witness claim C5 (scenario 5 of the spec). -/
def batchC5 : PayrollBatch :=
  { organization := 1, balance := 10000, recipients := [(21, 1000), (22, 1500)],
    total_amount := 2500, created_at_ms := 0 }

/-- Concrete wallet used to witness claim C5. -/
def walC5 : EmployeeWallet :=
  { owner := 21, organization := 1, balance := 0, total_deposited := 0,
    total_withdrawn := 0, created_at_ms := 0 }

/-- The `PayrollRun` record produced by the witnessed call for claim C5. -/
def runRecC5 : PayrollRun :=
  { run_id := 0, organization := 1, executor := 9, total_amount := 1000,
    employee_count := 1, executed_at_ms := 7, status := 1 }

/-- Registry state after the witnessed `execute_payroll_single` call. -/
def regC5r : PayrollRegistry :=
  { payroll_runs := [(0, runRecC5)], next_run_id := 1 }

/-- Batch state after the witnessed `execute_payroll_single` call. -/
def batchC5r : PayrollBatch :=
  { organization := 1, balance := 9000, recipients := [(22, 1500)],
    total_amount := 2500, created_at_ms := 0 }

/-- Wallet state after the witnessed `execute_payroll_single` call. -/
def walC5r : EmployeeWallet :=
  { owner := 21, organization := 1, balance := 1000, total_deposited := 1000,
    total_withdrawn := 0, created_at_ms := 0 }

theorem execute_single_behavior_witness :
    execute_payroll_single regC5 batchC5 walC5 7 9 =
      .ok (regC5r, batchC5r, walC5r) ∧
    batchC5r.balance + 1000 = batchC5.balance ∧
    walC5r.balance = walC5.balance + 1000 ∧
    execute_payroll_single regC5r batchC5r walC5r 7 9 =
      .error .E_PAYROLL_NOT_FOUND := by
  obtain ⟨r', b', w', hex, h1, h2, h3, h4, h5, h6, h7⟩ :=
    (execute_single_behavior regC5 batchC5 walC5 7 9 1000 (by decide)
      (by rfl)).2 (by decide) (by decide) (by decide) (by decide) (by decide)
      (by rfl)
  have he : (Except.ok (r', b', w') :
      Except Abort (PayrollRegistry × PayrollBatch × EmployeeWallet)) =
      .ok (regC5r, batchC5r, walC5r) := by
    rw [← hex]; rfl
  simp only [Except.ok.injEq, Prod.mk.injEq] at he
  obtain ⟨e1, e2, e3⟩ := he
  subst e1; subst e2; subst e3
  exact ⟨hex, h3, h4, h7⟩

/-! ### Claim C6: treasury spend-limit invariant -/

/-- The organization treasury invariant: withdrawals never exceed deposits and
the available amount stays within the spend limit. -/
def TreasuryInv (t : TreasuryStats) : Prop :=
  t.total_withdrawn ≤ t.total_deposited ∧
  t.total_deposited - t.total_withdrawn ≤ t.spend_limit

/-- Claim C6: every treasury update preserves
`total_deposited − total_withdrawn ≤ spend_limit`: a successful
`record_deposit` grows `total_deposited` by the amount and re-establishes the
invariant unconditionally (it asserts the limit after the increase), a
successful `record_withdrawal` grows `total_withdrawn` by the amount and
preserves the invariant, a deposit that would push the available amount past
the spend limit aborts with the treasury-limit error, and a withdrawal whose
amount exceeds the available funds aborts with the insufficient-funds error
(the `Except` semantics leaving the registry unchanged on every abort). -/
theorem treasury_spend_limit (registry : Registry)
    (A amount clock_ms sender : Nat) (org : OrganizationRecord)
    (horg : lookupA registry.organizations A = some org) :
    (∀ registry', record_deposit registry A amount clock_ms sender =
        .ok registry' →
      ∃ org', lookupA registry'.organizations A = some org' ∧
        TreasuryInv org'.treasury ∧
        org'.treasury.total_deposited = org.treasury.total_deposited + amount ∧
        org'.treasury.total_withdrawn = org.treasury.total_withdrawn) ∧
    (TreasuryInv org.treasury →
     ∀ registry', record_withdrawal registry A amount clock_ms sender =
        .ok registry' →
      ∃ org', lookupA registry'.organizations A = some org' ∧
        TreasuryInv org'.treasury ∧
        org'.treasury.total_withdrawn = org.treasury.total_withdrawn + amount ∧
        org'.treasury.total_deposited = org.treasury.total_deposited) ∧
    (sender = org.admin →
     org.treasury.total_deposited + amount < U64_MOD →
     org.treasury.total_withdrawn ≤ org.treasury.total_deposited + amount →
     org.treasury.spend_limit <
       org.treasury.total_deposited + amount - org.treasury.total_withdrawn →
       record_deposit registry A amount clock_ms sender =
         .error .E_TREASURY_LIMIT) ∧
    (sender = org.admin →
     org.treasury.total_withdrawn ≤ org.treasury.total_deposited →
     org.treasury.total_deposited - org.treasury.total_withdrawn < amount →
       record_withdrawal registry A amount clock_ms sender =
         .error .E_TREASURY_INSUFFICIENT) := by
  have hsome : (lookupA registry.organizations A).isSome = true := by
    simp [horg]
  refine ⟨?_, ?_, ?_, ?_⟩
  · intro registry' hs
    simp only [record_deposit, horg] at hs
    split_ifs at hs with c1 c2
    cases hal : assert_within_limit { org.treasury with
        total_deposited := org.treasury.total_deposited + amount } with
    | error e => rw [hal] at hs; cases hs
    | ok u =>
      rw [hal] at hs
      simp only [Except.ok.injEq] at hs
      subst hs
      simp only [assert_within_limit] at hal
      split_ifs at hal with d1 d2
      refine ⟨_, lookupA_updateA_self _ hsome, ?_, rfl, rfl⟩
      exact ⟨by simp at d1 ⊢; omega, by simp at d2 ⊢; omega⟩
  · intro hinv registry' hs
    simp only [record_withdrawal, horg] at hs
    split_ifs at hs with c1 c2 c3 c4
    simp only [Except.ok.injEq] at hs
    subst hs
    refine ⟨_, lookupA_updateA_self _ hsome, ?_, rfl, rfl⟩
    obtain ⟨hi1, hi2⟩ := hinv
    exact ⟨by simp at c2 c3 ⊢; omega, by simp at c2 c3 ⊢; omega⟩
  · intro hadmin hov hle hgt
    have c1 : ¬ sender ≠ org.admin := by simp [hadmin]
    have c2 : ¬ U64_MOD ≤ org.treasury.total_deposited + amount := by omega
    have hal : assert_within_limit { org.treasury with
        total_deposited := org.treasury.total_deposited + amount } =
        .error .E_TREASURY_LIMIT := by
      have d1 : ¬ org.treasury.total_deposited + amount <
          org.treasury.total_withdrawn := by omega
      simp only [assert_within_limit]
      rw [if_neg (by simpa using d1), if_pos (by simpa using hgt)]
    simp only [record_deposit, horg, if_neg c1, if_neg c2, hal]
  · intro hadmin hle hlt
    have c1 : ¬ sender ≠ org.admin := by simp [hadmin]
    have c2 : ¬ org.treasury.total_deposited <
        org.treasury.total_withdrawn := by omega
    simp only [record_withdrawal, horg, if_neg c1, if_neg c2,
      if_pos (by simpa using hlt)]

/-- Concrete treasury used to witness claim C6. -/
def tC6 : TreasuryStats :=
  { total_deposited := 500, total_withdrawn := 100, spend_limit := 1000 }

/-- Concrete organization used to witness claim C6. -/
def orgC6 : OrganizationRecord :=
  { name := [], metadata := [], admin := 3, employees := [], employee_cap := 10,
    employee_count := 0, treasury := tC6, created_at_ms := 0 }

/-- Concrete registry used to witness claim C6. -/
def regC6 : Registry := { organizations := [(3, orgC6)] }

theorem treasury_spend_limit_witness :
    record_deposit regC6 3 700 0 3 = .error .E_TREASURY_LIMIT ∧
    record_withdrawal regC6 3 500 0 3 = .error .E_TREASURY_INSUFFICIENT :=
  ⟨(treasury_spend_limit regC6 3 700 0 3 orgC6 (by rfl)).2.2.1 (by rfl)
     (by decide) (by decide) (by decide),
   (treasury_spend_limit regC6 3 500 0 3 orgC6 (by rfl)).2.2.2 (by rfl)
     (by decide) (by decide)⟩

/-! ### Claim C8: employee count and cap -/

/-- The organization roster invariant: the stored `employee_count` is the
number of profiles in the employees table, the employee keys are distinct, and
the count never exceeds `employee_cap`. -/
def OrgInv (org : OrganizationRecord) : Prop :=
  org.employee_count = org.employees.length ∧
  (org.employees.map Prod.fst).Nodup ∧
  org.employee_count ≤ org.employee_cap

/-- All organizations in a registry satisfy the roster invariant. -/
def OrgInvAll (registry : Registry) : Prop :=
  ∀ p ∈ registry.organizations, OrgInv p.2

theorem containsA_false_lookup_none {V : Type} {m : List (Nat × V)} {k : Nat}
    (h : containsA m k = false) : lookupA m k = none := by
  cases hl : lookupA m k with
  | none => rfl
  | some v => simp [containsA, hl] at h

theorem orgInvAll_insertA {registry : Registry} {k : Nat}
    {org : OrganizationRecord}
    (h : OrgInvAll registry) (horg : OrgInv org) :
    ∀ p ∈ insertA registry.organizations k org, OrgInv p.2 := by
  intro p hp
  rw [insertA] at hp
  rcases List.mem_append.mp hp with hh | hh
  · exact h p hh
  · simp only [List.mem_singleton] at hh
    subst hh
    exact horg

theorem orgInvAll_updateA {registry : Registry} {k : Nat}
    {org : OrganizationRecord}
    (h : OrgInvAll registry) (horg : OrgInv org) :
    ∀ p ∈ updateA registry.organizations k org, OrgInv p.2 := by
  intro p hp
  rcases mem_updateA hp with hh | hh
  · exact h p hh
  · subst hh
    exact horg

theorem stepReg_orgInvAll {registry registry' : Registry} {act : RAction}
    (h : OrgInvAll registry) (hs : stepReg registry act = .ok registry') :
    OrgInvAll registry' := by
  cases act with
  | reg name metadata employee_cap spend_limit clock_ms sender =>
    simp only [stepReg, register_organization] at hs
    split_ifs at hs with c1 c2 c3
    simp only [Except.ok.injEq] at hs
    subst hs
    exact orgInvAll_insertA h ⟨rfl, by simp, by simp⟩
  | addEmp org_admin employee wallet role clock_ms sender =>
    cases hlk : lookupA registry.organizations org_admin with
    | none => simp only [stepReg, add_employee, hlk] at hs; cases hs
    | some org =>
      simp only [stepReg, add_employee, hlk] at hs
      split_ifs at hs with c1 c2 c3
      simp only [Except.ok.injEq] at hs
      subst hs
      have hoi : OrgInv org := h _ (mem_of_lookupA hlk)
      obtain ⟨hc, hn, hcap⟩ := hoi
      refine orgInvAll_updateA h ⟨?_, ?_, ?_⟩
      · simp [insertA, hc]
      · exact keys_insertA_nodup _ hn
          (containsA_false_lookup_none (by simpa using c3))
      · simp only []
        omega
  | recDep org_admin amount clock_ms sender =>
    cases hlk : lookupA registry.organizations org_admin with
    | none => simp only [stepReg, record_deposit, hlk] at hs; cases hs
    | some org =>
      simp only [stepReg, record_deposit, hlk] at hs
      split_ifs at hs with c1 c2
      cases hal : assert_within_limit { org.treasury with
          total_deposited := org.treasury.total_deposited + amount } with
      | error e => rw [hal] at hs; cases hs
      | ok u =>
        rw [hal] at hs
        simp only [Except.ok.injEq] at hs
        subst hs
        have hoi : OrgInv org := h _ (mem_of_lookupA hlk)
        exact orgInvAll_updateA h ⟨hoi.1, hoi.2.1, hoi.2.2⟩
  | recWd org_admin amount clock_ms sender =>
    cases hlk : lookupA registry.organizations org_admin with
    | none => simp only [stepReg, record_withdrawal, hlk] at hs; cases hs
    | some org =>
      simp only [stepReg, record_withdrawal, hlk] at hs
      split_ifs at hs with c1 c2 c3 c4
      simp only [Except.ok.injEq] at hs
      subst hs
      have hoi : OrgInv org := h _ (mem_of_lookupA hlk)
      exact orgInvAll_updateA h ⟨hoi.1, hoi.2.1, hoi.2.2⟩

theorem stepReg_count {registry registry' : Registry} {act : RAction}
    {A : Nat} {org : OrganizationRecord}
    (horg : lookupA registry.organizations A = some org)
    (hs : stepReg registry act = .ok registry') :
    ∃ org', lookupA registry'.organizations A = some org' ∧
      org'.employee_count =
        org.employee_count + (if targetsAdd A act then 1 else 0) ∧
      org'.employee_cap = org.employee_cap := by
  have hsome : (lookupA registry.organizations A).isSome = true := by
    simp [horg]
  cases act with
  | reg name metadata employee_cap spend_limit clock_ms sender =>
    simp only [stepReg, register_organization] at hs
    split_ifs at hs with c1 c2 c3
    simp only [Except.ok.injEq] at hs
    subst hs
    refine ⟨org, ?_, by simp [targetsAdd], rfl⟩
    simp only []
    rw [lookupA_insertA_of_isSome _ _ hsome]
    exact horg
  | addEmp org_admin employee wallet role clock_ms sender =>
    cases hlk : lookupA registry.organizations org_admin with
    | none => simp only [stepReg, add_employee, hlk] at hs; cases hs
    | some orgB =>
      simp only [stepReg, add_employee, hlk] at hs
      split_ifs at hs with c1 c2 c3
      simp only [Except.ok.injEq] at hs
      subst hs
      by_cases hAB : org_admin = A
      · subst hAB
        rw [horg] at hlk
        cases hlk
        refine ⟨_, lookupA_updateA_self _ hsome, ?_, ?_⟩
        · simp [targetsAdd]
        · rfl
      · refine ⟨org, ?_, by simp [targetsAdd, hAB], rfl⟩
        simp only []
        rw [lookupA_updateA_ne _ _ hAB]
        exact horg
  | recDep org_admin amount clock_ms sender =>
    cases hlk : lookupA registry.organizations org_admin with
    | none => simp only [stepReg, record_deposit, hlk] at hs; cases hs
    | some orgB =>
      simp only [stepReg, record_deposit, hlk] at hs
      split_ifs at hs with c1 c2
      cases hal : assert_within_limit { orgB.treasury with
          total_deposited := orgB.treasury.total_deposited + amount } with
      | error e => rw [hal] at hs; cases hs
      | ok u =>
        rw [hal] at hs
        simp only [Except.ok.injEq] at hs
        subst hs
        by_cases hAB : org_admin = A
        · subst hAB
          rw [horg] at hlk
          cases hlk
          refine ⟨_, lookupA_updateA_self _ hsome, ?_, ?_⟩
          · simp [targetsAdd]
          · rfl
        · refine ⟨org, ?_, by simp [targetsAdd], rfl⟩
          simp only []
          rw [lookupA_updateA_ne _ _ hAB]
          exact horg
  | recWd org_admin amount clock_ms sender =>
    cases hlk : lookupA registry.organizations org_admin with
    | none => simp only [stepReg, record_withdrawal, hlk] at hs; cases hs
    | some orgB =>
      simp only [stepReg, record_withdrawal, hlk] at hs
      split_ifs at hs with c1 c2 c3 c4
      simp only [Except.ok.injEq] at hs
      subst hs
      by_cases hAB : org_admin = A
      · subst hAB
        rw [horg] at hlk
        cases hlk
        refine ⟨_, lookupA_updateA_self _ hsome, ?_, ?_⟩
        · simp [targetsAdd]
        · rfl
      · refine ⟨org, ?_, by simp [targetsAdd], rfl⟩
        simp only []
        rw [lookupA_updateA_ne _ _ hAB]
        exact horg

theorem runReg_spec {A : Nat} :
    ∀ (acts : List RAction) (registry : Registry) (org : OrganizationRecord),
      OrgInvAll registry → lookupA registry.organizations A = some org →
      ∃ org', lookupA (runReg A registry acts).1.organizations A = some org' ∧
        org'.employee_count = org.employee_count + (runReg A registry acts).2 ∧
        OrgInvAll (runReg A registry acts).1 := by
  intro acts
  induction acts with
  | nil =>
    intro registry org hinv horg
    exact ⟨org, by simpa [runReg] using horg, by simp [runReg], by
      simpa [runReg] using hinv⟩
  | cons act rest ih =>
    intro registry org hinv horg
    cases hstep : stepReg registry act with
    | error e =>
      have := ih registry org hinv horg
      simpa [runReg, hstep] using this
    | ok registry1 =>
      have hinv1 := stepReg_orgInvAll hinv hstep
      obtain ⟨org1, h1, h2, h3⟩ := stepReg_count horg hstep
      obtain ⟨org', h4, h5, h6⟩ := ih registry1 org1 hinv1 h1
      refine ⟨org', ?_, ?_, ?_⟩
      · simpa [runPool, runReg, hstep] using h4
      · simp only [runReg, hstep]
        cases htg : targetsAdd A act with
        | true => simp only [htg, if_true] at h2 ⊢; omega
        | false => simp only [htg, if_false] at h2 ⊢; omega
      · simpa [runReg, hstep] using h6

/-- Claim C8: for an organization satisfying the roster invariant, after any
sequence of registry transactions the organization's `employee_count` has
grown by exactly the number of successful `addEmployee` calls targeting it
(each success inserting a distinct new employee), the count equals the number
of profiles stored, the employee keys are distinct, and the count never
exceeds `employee_cap`; moreover an `addEmployee` call by the admin fails
with the capacity error when the count has reached the cap, and with the
already-exists error when the employee is present (below cap), the count
remaining unchanged in both cases by the `Except` semantics. -/
theorem organization_employee_count (registry : Registry) (acts : List RAction)
    (A employee wallet clock_ms sender : Nat) (role : List Nat)
    (org : OrganizationRecord)
    (hinv : OrgInvAll registry)
    (horg : lookupA registry.organizations A = some org) :
    (∃ org', lookupA (runReg A registry acts).1.organizations A = some org' ∧
       org'.employee_count = org.employee_count + (runReg A registry acts).2 ∧
       org'.employee_count = org'.employees.length ∧
       (org'.employees.map Prod.fst).Nodup ∧
       org'.employee_count ≤ org'.employee_cap) ∧
    (sender = org.admin → org.employee_cap ≤ org.employee_count →
       add_employee registry A employee wallet role clock_ms sender =
         .error .E_EMPLOYEE_CAP) ∧
    (sender = org.admin → org.employee_count < org.employee_cap →
       containsA org.employees employee = true →
       add_employee registry A employee wallet role clock_ms sender =
         .error .E_EMPLOYEE_EXISTS) := by
  refine ⟨?_, ?_, ?_⟩
  · obtain ⟨org', h1, h2, h3⟩ := runReg_spec acts registry org hinv horg
    obtain ⟨hc, hn, hcap⟩ := h3 _ (mem_of_lookupA h1)
    exact ⟨org', h1, h2, hc, hn, hcap⟩
  · intro hadmin hcap
    have c1 : ¬ sender ≠ org.admin := by simp [hadmin]
    simp only [add_employee, horg, if_neg c1, if_pos hcap]
  · intro hadmin hlt hmem
    have c1 : ¬ sender ≠ org.admin := by simp [hadmin]
    have c2 : ¬ org.employee_cap ≤ org.employee_count := by omega
    simp only [add_employee, horg, if_neg c1, if_neg c2, hmem, if_true]

/-- Concrete employee profile used to witness claim C8. -/
def profC8 : EmployeeProfile :=
  { wallet := 70, role := [], active := true, last_updated_ms := 0 }

/-- Concrete treasury used to witness claim C8. -/
def tC8 : TreasuryStats :=
  { total_deposited := 0, total_withdrawn := 0, spend_limit := 5 }

/-- Concrete organization used to witness claim C8: one employee, cap two. -/
def orgC8 : OrganizationRecord :=
  { name := [], metadata := [], admin := 3, employees := [(7, profC8)],
    employee_cap := 2, employee_count := 1, treasury := tC8,
    created_at_ms := 0 }

/-- Concrete registry used to witness claim C8. -/
def regC8 : Registry := { organizations := [(3, orgC8)] }

/-- Witness actions for claim C8: a fresh employee is added (succeeds), then a
second addition hits the cap and fails. -/
def actsC8 : List RAction :=
  [.addEmp 3 8 80 [] 4 3, .addEmp 3 9 81 [] 5 3]

/-- Profile inserted by the successful witness action for claim C8. -/
def profC8b : EmployeeProfile :=
  { wallet := 80, role := [], active := true, last_updated_ms := 4 }

/-- Organization state after running `actsC8`. -/
def orgC8r : OrganizationRecord :=
  { name := [], metadata := [], admin := 3,
    employees := [(7, profC8), (8, profC8b)], employee_cap := 2,
    employee_count := 2, treasury := tC8, created_at_ms := 0 }

theorem organization_employee_count_witness :
    orgC8r.employee_count = orgC8.employee_count + (runReg 3 regC8 actsC8).2 ∧
    orgC8r.employee_count = orgC8r.employees.length ∧
    (orgC8r.employees.map Prod.fst).Nodup ∧
    orgC8r.employee_count ≤ orgC8r.employee_cap ∧
    add_employee (runReg 3 regC8 actsC8).1 3 9 90 [] 6 3 =
      .error .E_EMPLOYEE_CAP ∧
    add_employee regC8 3 7 70 [] 6 3 = .error .E_EMPLOYEE_EXISTS := by
  obtain ⟨org', h1, h2, h3, h4, h5⟩ :=
    (organization_employee_count regC8 actsC8 3 9 90 6 3 [] orgC8
      (by unfold OrgInvAll OrgInv; decide) (by rfl)).1
  have hx : (some org' : Option OrganizationRecord) = some orgC8r := by
    rw [← h1]; rfl
  simp only [Option.some.injEq] at hx
  subst hx
  refine ⟨h2, h3, h4, h5, ?_, ?_⟩
  · exact (organization_employee_count (runReg 3 regC8 actsC8).1 [] 3 9 90 6 3
      [] orgC8r (by unfold OrgInvAll OrgInv; decide) (by rfl)).2.1 (by rfl)
      (by decide)
  · exact (organization_employee_count regC8 [] 3 7 70 6 3 [] orgC8
      (by unfold OrgInvAll OrgInv; decide) (by rfl)).2.2 (by rfl) (by decide)
      (by decide)
